import Mathlib

/-!
# Verification of the photo-album web app's keyword and indexing pipeline

Shallow embedding of the two Lambda handlers
(`search-photos.py` and `index-photos.py`) of the repository.

Python strings are modelled as `List Char`; JSON-like dictionaries become
structures with `Option` fields; calls to external collaborators (S3,
Rekognition, Lex, OpenSearch, `hashlib`) are passed in explicitly as
environment data, with Python exceptions modelled by `Except`.
-/

set_option maxRecDepth 4000

/-- Python exception payload (the message). -/
abbrev PyExn := List Char

/-! ## search-photos.py : keyword normalizer -/

/-- `STOP_WORDS` from search-photos.py line 12. -/
def STOP_WORDS : List (List Char) :=
  ["the", "a", "an", "and", "or", "but", "in", "on", "at", "to", "for",
   "of", "with", "by", "show", "me", "find", "search", "photos",
   "pictures", "images"].map String.toList

/-- The punctuation characters of `word.strip('.,!?')` in
`extract_keywords_from_text` (search-photos.py line 33). -/
def isPunctChar (c : Char) : Bool :=
  c == '.' || c == ',' || c == '!' || c == '?'

/-- Python `str.strip(chars)`: remove characters satisfying `p` from both
ends of the string. -/
def pyStripBoth (p : Char → Bool) (w : List Char) : List Char :=
  ((w.dropWhile p).reverse.dropWhile p).reverse

/-- Python `str.lower()` (character-wise lowercasing). -/
def pyLower (t : List Char) : List Char :=
  t.map Char.toLower

/-- Helper for Python `str.split()` (no separator): cut at whitespace,
accumulating the current word in reverse. -/
def splitWsAux : List Char → List Char → List (List Char)
  | [], acc => [acc.reverse]
  | c :: cs, acc =>
    if c.isWhitespace then acc.reverse :: splitWsAux cs []
    else splitWsAux cs (c :: acc)

/-- Python `str.split()` with no argument: split on whitespace and drop
the empty pieces. -/
def pySplit (t : List Char) : List (List Char) :=
  (splitWsAux t []).filter (fun w => !w.isEmpty)

/-- Python `word[:-n]` for a word of length ≥ n. -/
def pyDropRight (w : List Char) (n : Nat) : List Char :=
  w.take (w.length - n)

/-- Python `word.endswith(suffix)`. -/
def endswith (w s : List Char) : Bool :=
  s.isSuffixOf w

/-- `normalize_plural` from search-photos.py lines 14-28.  Note the
`elif` chain: a word ending in `"es"` (length > 3) that does not carry
one of the special suffixes falls through to the final `return word`,
never reaching the drop-`"s"` branch. -/
def normalize_plural (word : List Char) : List Char :=
  if word.length ≤ 3 then word
  else if endswith word ("ies".toList) && decide (word.length > 4) then
    pyDropRight word 3 ++ "y".toList
  else if endswith word ("es".toList) && decide (word.length > 3) then
    if endswith word ("ches".toList) || endswith word ("shes".toList) ||
       endswith word ("xes".toList) || endswith word ("zes".toList) ||
       endswith word ("sses".toList) then
      pyDropRight word 2
    else word
  else if endswith word ("s".toList) && decide (word.length > 3) then
    pyDropRight word 1
  else word

/-- `extract_keywords_from_text` from search-photos.py lines 30-35.
The stop-word and length filters are applied to the raw lowercased word,
*before* the punctuation strip. -/
def extract_keywords_from_text (text : List Char) : List (List Char) :=
  let words := pySplit (pyLower text)
  let keywords :=
    (words.filter (fun word =>
      !(decide (word ∈ STOP_WORDS)) && decide (word.length > 2))).map
      (fun word => pyStripBoth isPunctChar word)
  keywords.map normalize_plural

/-- Python `" ".join(tokens)` (space-separated concatenation). -/
def pyJoin : List (List Char) → List Char
  | [] => []
  | [w] => w
  | w :: ws => w ++ ' ' :: pyJoin ws

/-! ## search-photos.py : Lex slot structures -/

/-- `slot_value['value']` — the dictionary that may carry an
`interpretedValue` key; `.get('interpretedValue', '')` makes an absent
key indistinguishable from the empty string. -/
structure SlotValueInner where
  interpretedValue : List Char
deriving DecidableEq

/-- A non-falsy `slot_value` dictionary: `value = none` models the
absence of the `'value'` key. -/
structure SlotValue where
  value : Option SlotValueInner
deriving DecidableEq

/-- The `slots` mapping of a Lex intent: slot name paired with the slot
value, `none` modelling a falsy (`None` / `{}`) entry.  Python dicts
iterate in insertion order, hence a list of pairs. -/
abbrev Slots := List (List Char × Option SlotValue)

/-- `extract_keywords_from_slots` (search-photos.py lines 303-311):
the `for` loop over `slots.items()` extending `keywords`. -/
def extract_keywords_from_slots_loop : Slots → List (List Char) → List (List Char)
  | [], keywords => keywords
  | s :: rest, keywords =>
    match s.2 with
    | none => extract_keywords_from_slots_loop rest keywords
    | some slot_value =>
      match slot_value.value with
      | none => extract_keywords_from_slots_loop rest keywords
      | some inner =>
        if inner.interpretedValue = [] then
          extract_keywords_from_slots_loop rest keywords
        else
          extract_keywords_from_slots_loop rest
            (keywords ++ extract_keywords_from_text inner.interpretedValue)

/-- `extract_keywords_from_slots` from search-photos.py lines 303-311. -/
def extract_keywords_from_slots (slots : Slots) : List (List Char) :=
  extract_keywords_from_slots_loop slots []

/-- `lex_response['sessionState']['intent']`: its `slots` key may be
absent (`.get('slots', {})`). -/
structure LexIntent where
  slots : Option Slots

/-- A Lex response as consulted by `extract_keywords_from_lex_response`:
`sessionStateIntent = none` models the case where `'sessionState'` is
missing or carries no `'intent'` key. -/
structure LexResponse where
  sessionStateIntent : Option LexIntent

/-- `extract_keywords_from_lex_response` from search-photos.py
lines 211-224. -/
def extract_keywords_from_lex_response (lex_response : LexResponse) : List (List Char) :=
  match lex_response.sessionStateIntent with
  | none => []
  | some intent =>
    let slots := intent.slots.getD []
    let keywords := extract_keywords_from_slots slots
    if keywords = [] then [] else keywords

/-! ## search-photos.py : OpenSearch query -/

/-- One parsed hit of the OpenSearch response: the `_source` fields read
by `search_photos_in_opensearch` (after the `.get(..., '')` defaults). -/
structure OsHit where
  bucket : List Char
  objectKey : List Char
  labels : List (List Char)

/-- The body of the search request built in `search_photos_in_opensearch`
(lines 67-77): a `bool.should` clause matching `labels` against each
keyword, `minimum_should_match` 1 and `size` 50. -/
structure OsQuery where
  shouldMatchLabels : List (List Char)
  minimumShouldMatch : Nat
  size : Nat
deriving DecidableEq

/-- The S3 URL built for each hit (search-photos.py line 99). -/
def s3_url (bucket objectKey : List Char) : List Char :=
  "https://".toList ++ bucket ++ ".s3.us-east-1.amazonaws.com/".toList ++ objectKey

/-- A search result `{url, labels}`. -/
structure SearchResult where
  url : List Char
  labels : List (List Char)

/-- External collaborators of `search_photos_in_opensearch`:
the configured endpoint, the credential acquisition (which may raise),
and the POST of the search request, whose `Except` covers transport
errors, `raise_for_status` and response parsing; the `.ok` payload is
the `hits.hits` list already projected to its `_source` fields. -/
structure SearchEnv where
  endpoint : List Char
  credentials : Except PyExn Unit
  post : OsQuery → Except PyExn (List OsHit)

/-- `search_photos_in_opensearch` from search-photos.py lines 38-111,
returning the result list together with the trace of search requests
issued to the index. -/
def search_photos_in_opensearch (env : SearchEnv) (keywords : List (List Char)) :
    List SearchResult × List OsQuery :=
  if keywords = [] then ([], [])
  else if env.endpoint = [] then ([], [])
  else
    match env.credentials with
    | .error _ => ([], [])
    | .ok _ =>
      let query : OsQuery := ⟨keywords, 1, 50⟩
      match env.post query with
      | .error _ => ([], [query])
      | .ok hits =>
        (hits.map (fun hit => ⟨s3_url hit.bucket hit.objectKey, hit.labels⟩), [query])

/-! ## search-photos.py : API search handler -/

/-- The JSON body of the API response: either the 400/500 error shape or
the `{query, keywords, results}` success shape. -/
inductive ApiBody where
  | err (msg : List Char)
  | ok (query : List Char) (keywords : List (List Char)) (results : List SearchResult)

/-- The `keywords` field of a success body (empty for an error body). -/
def ApiBody.keywordsOf : ApiBody → List (List Char)
  | .err _ => []
  | .ok _ keywords _ => keywords

/-- Python `dict.get(k)` on the query-string parameters. -/
def lookupParam (params : List (List Char × List Char)) (k : List Char) :
    Option (List Char) :=
  (params.find? (fun p => p.1 == k)).map (fun p => p.2)

/-- The query-string key `'q'` consulted by `handle_api_search`. -/
def q_param_key : List Char :=
  "q".toList

/-- External collaborators of `handle_api_search`: `query_lex_bot`
(returns `none` when the bot is unconfigured or the call raises, as the
Python function catches its own exceptions) and the search collaborator. -/
structure ApiEnv where
  lex : List Char → Option LexResponse
  searchEnv : SearchEnv

/-- `handle_api_search` from search-photos.py lines 133-208, given the
event's `queryStringParameters` (`none` models a missing/null field).
Returns the status code and body.  The surrounding `try/except` (500
path) only catches collaborator exceptions, which are already absorbed
by `query_lex_bot` and `search_photos_in_opensearch` themselves. -/
def handle_api_search (env : ApiEnv)
    (queryStringParameters : Option (List (List Char × List Char))) :
    Nat × ApiBody :=
  let query_params := queryStringParameters.getD []
  let user_query :=
    pyStripBoth Char.isWhitespace ((lookupParam query_params q_param_key).getD [])
  if user_query = [] then
    (400, .err "Query parameter q is required".toList)
  else
    let keywords :=
      match env.lex user_query with
      | none => extract_keywords_from_text user_query
      | some lex_response => extract_keywords_from_lex_response lex_response
    if keywords = [] then
      (200, .ok user_query [] [])
    else
      (200, .ok user_query keywords (search_photos_in_opensearch env.searchEnv keywords).1)

/-! ## index-photos.py : fingerprint and indexing -/

/-- Python `str.replace(a, b)` for single characters. -/
def replaceChar (l : List Char) (a b : Char) : List Char :=
  l.map (fun c => if c = a then b else c)

/-- `get_photo_hash` from index-photos.py lines 194-212.  `md5hex`
models `hashlib.md5(...).hexdigest()`; `objectBytes` is the outcome of
the ranged `get_object` call, with the full object content in the `.ok`
case — the `Range='bytes=0-1023'` request delivers its first 1024
bytes.  On a read failure the fallback identity is derived from the key. -/
def get_photo_hash (md5hex : List UInt8 → List Char)
    (objectBytes : Except PyExn (List UInt8)) (key : List Char) : List Char :=
  match objectBytes with
  | .ok content => (md5hex (content.take 1024)).take 12
  | .error _ => replaceChar (replaceChar key '/' '_') '.' '_'

/-- The photo document assembled by `handle_s3_indexing` (lines 106-111). -/
structure PhotoDocument where
  objectKey : List Char
  bucket : List Char
  createdTimestamp : List Char
  labels : List (List Char)

/-- The document identity `f"photo_{content_hash}"`
(index-photos.py line 240). -/
def photo_document_id (content_hash : List Char) : List Char :=
  "photo_".toList ++ content_hash

/-- External collaborators of `index_photo`: the endpoint, credential
acquisition, the S3 ranged read used by `get_photo_hash`, the digest,
and the HEAD / PUT requests to the index keyed by document id (their
`Except` covers transport errors, the `.ok` payload is the status code). -/
structure IndexEnv where
  endpoint : List Char
  credentials : Except PyExn Unit
  objectBytes : Except PyExn (List UInt8)
  md5hex : List UInt8 → List Char
  head : List Char → Except PyExn Nat
  put : List Char → Except PyExn Nat

/-- `index_photo` from index-photos.py lines 215-275, returning the
Python return value (`none` for the bare `return`, `some b` for
`return b`) together with the trace of PUT requests issued to the index
(the document ids written).  Every exception raised inside the `try`
block lands in the `except` branch returning `False`. -/
def index_photo (env : IndexEnv) (photo_document : PhotoDocument) :
    Option Bool × List (List Char) :=
  if env.endpoint = [] then (none, [])
  else
    match env.credentials with
    | .error _ => (some false, [])
    | .ok _ =>
      let content_hash := get_photo_hash env.md5hex env.objectBytes photo_document.objectKey
      let document_id := photo_document_id content_hash
      match env.head document_id with
      | .error _ => (some false, [])
      | .ok check_status =>
        if check_status = 200 then (some false, [])
        else
          match env.put document_id with
          | .error _ => (some false, [document_id])
          | .ok put_status =>
            if put_status = 200 ∨ put_status = 201 then (some true, [document_id])
            else (some false, [document_id])

/-! ## index-photos.py : label aggregation -/

/-- Helper for Python `str.split(sep)`: cut at the separator,
accumulating the current piece in reverse. -/
def splitOnCharAux (sep : Char) : List Char → List Char → List (List Char)
  | [], acc => [acc.reverse]
  | c :: cs, acc =>
    if c = sep then acc.reverse :: splitOnCharAux sep cs []
    else splitOnCharAux sep cs (c :: acc)

/-- Python `str.split(sep)` with an explicit single-character separator
(keeps empty pieces, result always non-empty). -/
def splitOnChar (l : List Char) (sep : Char) : List (List Char) :=
  splitOnCharAux sep l []

/-- Python `str.strip()` with no argument: strip whitespace on both ends. -/
def pyStripWs (w : List Char) : List Char :=
  pyStripBoth Char.isWhitespace w

/-- Python `dict.get(k)` on a string-to-string mapping. -/
def pyDictGet (m : List (List Char × List Char)) (k : List Char) : Option (List Char) :=
  (m.find? (fun p => p.1 == k)).map (fun p => p.2)

/-- The metadata key `'customlabels'` consulted by `get_custom_labels`. -/
def customlabels_key : List Char :=
  "customlabels".toList

/-- `get_custom_labels` from index-photos.py lines 164-191.
`headObject` is the outcome of `s3_client.head_object`, already
projected to its `Metadata` mapping; its `Except` covers the per-call
exceptions, which yield `[]`. -/
def get_custom_labels (headObject : Except PyExn (List (List Char × List Char))) :
    List (List Char) :=
  match headObject with
  | .error _ => []
  | .ok metadata =>
    let custom_labels_str := (pyDictGet metadata customlabels_key).getD []
    if custom_labels_str = [] then []
    else (splitOnChar custom_labels_str ',').map pyStripWs

/-- `all_labels = labels + custom_labels` (index-photos.py line 102):
the aggregation of the Rekognition labels with the metadata labels. -/
def all_labels (labels custom_labels : List (List Char)) : List (List Char) :=
  labels ++ custom_labels

/-- The Label Aggregator as the spec words it (§4.3): parse the CSV by
splitting on commas and trimming whitespace on each piece, an empty or
absent input yielding the empty sequence; concatenate vision labels
followed by metadata labels, preserving order, with no deduplication. -/
def aggregateSpec (visionLabels : List (List Char))
    (metadataLabelsCsv : Option (List Char)) : List (List Char) :=
  visionLabels ++
    match metadataLabelsCsv with
    | none => []
    | some s => if s = [] then [] else (splitOnChar s ',').map pyStripWs

/-- The contribution of a single slot as the spec words it (§4.4): a
slot with a non-empty interpreted value contributes the Keyword
Normalizer's tokens for that value; an empty or absent value
contributes nothing. -/
def slot_keywords : Option SlotValue → List (List Char)
  | none => []
  | some v =>
    match v.value with
    | none => []
    | some inner =>
      if inner.interpretedValue = [] then []
      else extract_keywords_from_text inner.interpretedValue

/-! ## Concrete fixtures used by individual counterexamples and witnesses -/

/-- An indexing environment where the identity is absent (HEAD gives
404) but the index write is refused with status 500. -/
def c1FailEnv : IndexEnv :=
  ⟨"opensearch".toList, .ok (), .ok [0, 1, 2], fun _ => "0123456789ab".toList,
   fun _ => .ok 404, fun _ => .ok 500⟩

/-- A photo document fixture for the C1 scenarios. -/
def c1Doc : PhotoDocument :=
  ⟨"beach1.jpg".toList, "bucket".toList, [], []⟩

/-- An indexing environment whose credential acquisition raises. -/
def c10AuthEnv : IndexEnv :=
  ⟨"opensearch".toList, .error "auth failed".toList, .ok [], fun _ => "0123456789ab".toList,
   fun _ => .ok 404, fun _ => .ok 201⟩

/-- An indexing environment where the ranged S3 read raises during
fingerprinting while HEAD and PUT succeed. -/
def c10FetchFailEnv : IndexEnv :=
  ⟨"opensearch".toList, .ok (), .error "read timeout".toList, fun _ => "0123456789ab".toList,
   fun _ => .ok 404, fun _ => .ok 201⟩

/-- A photo document fixture for the C10 scenarios. -/
def c10Doc : PhotoDocument :=
  ⟨"a/b.jpg".toList, "bucket".toList, [], []⟩

/-- An API environment whose Lex collaborator answers with a response
carrying an intent with an empty slot mapping. -/
def c5EmptySlotsEnv : ApiEnv :=
  ⟨fun _ => some ⟨some ⟨some []⟩⟩, ⟨[], .ok (), fun _ => .ok []⟩⟩







/-! ## Theorems -/

/-- C6: two objects with identical byte content in the sampled range
(first 1024 bytes) get the same fingerprint from `get_photo_hash`, and
hence the same derived document identity, whatever the digest function
and whatever the content beyond byte 1024. -/
theorem get_photo_hash_deterministic (md5hex : List UInt8 → List Char)
    (content₁ content₂ : List UInt8) (key₁ key₂ : List Char)
    (h : content₁.take 1024 = content₂.take 1024) :
    get_photo_hash md5hex (.ok content₁) key₁ = get_photo_hash md5hex (.ok content₂) key₂ ∧
    photo_document_id (get_photo_hash md5hex (.ok content₁) key₁) =
      photo_document_id (get_photo_hash md5hex (.ok content₂) key₂) := by
  refine ⟨?_, ?_⟩ <;> simp [get_photo_hash, photo_document_id, h]

/-- Witness for C6 at contents agreeing on the first 1024 bytes but
differing beyond them. -/
theorem get_photo_hash_deterministic_witness :
    (List.replicate 1024 (0 : UInt8)).take 1024 =
      (List.replicate 1024 (0 : UInt8) ++ [1]).take 1024 ∧
    get_photo_hash (fun _ => "9e107d9d372b".toList) (.ok (List.replicate 1024 (0 : UInt8))) [] =
      get_photo_hash (fun _ => "9e107d9d372b".toList)
        (.ok (List.replicate 1024 (0 : UInt8) ++ [1])) [] := by
  have h : (List.replicate 1024 (0 : UInt8)).take 1024 =
      (List.replicate 1024 (0 : UInt8) ++ [1]).take 1024 := by
    rw [List.take_left' (by simp), List.take_of_length_le (by simp)]
  exact ⟨h, (get_photo_hash_deterministic _ _ _ [] [] h).1⟩

/-- C7: the aggregated label sequence (`all_labels` over
`get_custom_labels`) is exactly the vision labels followed by the
comma-split, whitespace-trimmed metadata labels in order, with no
deduplication; an empty or absent `customlabels` metadata entry
contributes the empty sequence. -/
theorem all_labels_eq_aggregateSpec (visionLabels : List (List Char))
    (metadata : List (List Char × List Char)) :
    all_labels visionLabels (get_custom_labels (.ok metadata)) =
      aggregateSpec visionLabels (pyDictGet metadata customlabels_key) := by
  cases h : pyDictGet metadata customlabels_key with
  | none => simp [all_labels, get_custom_labels, aggregateSpec, h]
  | some s =>
    by_cases hs : s = [] <;> simp [all_labels, get_custom_labels, aggregateSpec, h, hs]

/-- Helper: the slot loop appends each slot's contribution to the
accumulator. -/
theorem extract_keywords_from_slots_loop_eq (slots : Slots) :
    ∀ acc, extract_keywords_from_slots_loop slots acc =
      acc ++ (slots.map (fun s => slot_keywords s.2)).flatten := by
  induction slots with
  | nil => intro acc; simp [extract_keywords_from_slots_loop]
  | cons s rest ih =>
    intro acc
    cases hs : s.2 with
    | none => simp [extract_keywords_from_slots_loop, hs, ih, slot_keywords]
    | some v =>
      cases hv : v.value with
      | none => simp [extract_keywords_from_slots_loop, hs, hv, ih, slot_keywords]
      | some inner =>
        by_cases hiv : inner.interpretedValue = [] <;>
          simp [extract_keywords_from_slots_loop, hs, hv, hiv, ih, slot_keywords]

/-- C8: `extract_keywords_from_slots` appends, slot by slot, the
normalizer's tokens for every slot with a non-empty interpreted value,
skipping empty or absent values; on the slots
`{"animal": "Dogs", "color": ""}` it yields exactly `["dog"]`. -/
theorem extract_keywords_from_slots_spec :
    (∀ slots : Slots, extract_keywords_from_slots slots =
      (slots.map (fun s => slot_keywords s.2)).flatten) ∧
    extract_keywords_from_slots
      [("animal".toList, some ⟨some ⟨"Dogs".toList⟩⟩),
       ("color".toList, some ⟨some ⟨"".toList⟩⟩)] = ["dog".toList] := by
  refine ⟨fun slots => ?_, by decide⟩
  simpa using extract_keywords_from_slots_loop_eq slots []

/-- C9: on an empty keyword list, and likewise when the OpenSearch
endpoint is not configured, `search_photos_in_opensearch` returns the
empty result list and issues no request to the index. -/
theorem search_photos_early_return (env : SearchEnv) (keywords : List (List Char)) :
    (keywords = [] → search_photos_in_opensearch env keywords = ([], [])) ∧
    (env.endpoint = [] → search_photos_in_opensearch env keywords = ([], [])) := by
  constructor <;> intro h <;> simp [search_photos_in_opensearch, h]

/-- Witness for C9 at a concrete environment and the empty keyword
list, and at a configured-but-empty-endpoint environment. -/
theorem search_photos_early_return_witness :
    search_photos_in_opensearch ⟨"example-endpoint".toList, .ok (), fun _ => .ok []⟩ [] = ([], []) ∧
    search_photos_in_opensearch ⟨[], .ok (), fun _ => .ok []⟩ ["dog".toList] = ([], []) :=
  ⟨(search_photos_early_return _ []).1 rfl,
   (search_photos_early_return ⟨[], .ok (), fun _ => .ok []⟩ _).2 rfl⟩

/-- C1 (amended): provided the endpoint is configured, credentials are
obtained and the HEAD existence check answers with a status code: if
the computed document identity already exists (HEAD 200), `index_photo`
performs no write and returns the duplicate report `False`; if it is
absent, exactly one write keyed by that identity is issued, and the
inserted report `True` is returned exactly when the write is
acknowledged with status 200 or 201. -/
theorem index_photo_check_then_write (env : IndexEnv) (doc : PhotoDocument)
    (document_id : List Char)
    (hid : document_id = photo_document_id (get_photo_hash env.md5hex env.objectBytes doc.objectKey))
    (hep : env.endpoint ≠ [])
    (hcred : env.credentials = .ok ()) :
    (env.head document_id = .ok 200 → index_photo env doc = (some false, [])) ∧
    (∀ s, env.head document_id = .ok s → s ≠ 200 →
      (index_photo env doc).2 = [document_id] ∧
      ((index_photo env doc).1 = some true ↔
        env.put document_id = .ok 200 ∨ env.put document_id = .ok 201)) := by
  subst hid
  constructor
  · intro hh
    simp [index_photo, hep, hcred, hh]
  · intro s hh hs
    rcases hput : env.put (photo_document_id (get_photo_hash env.md5hex env.objectBytes doc.objectKey)) with e | p
    · constructor <;> simp [index_photo, hep, hcred, hh, hs, hput]
    · by_cases hp : p = 200 ∨ p = 201 <;>
        constructor <;> simp [index_photo, hep, hcred, hh, hs, hput, hp]

/-- Witness for C1 (amended) at a concrete duplicate invocation. -/
theorem index_photo_check_then_write_witness :
    index_photo
      ⟨"opensearch".toList, .ok (), .ok [0, 1, 2], fun _ => "0123456789ab".toList,
       fun _ => .ok 200, fun _ => .ok 201⟩
      ⟨"beach1.jpg".toList, "bucket".toList, [], []⟩ = (some false, []) :=
  (index_photo_check_then_write _ _ _ rfl (by decide) rfl).1 rfl

/-- C1 counterexample: an invocation whose identity is absent (HEAD
gives 404) but whose index write is refused with status 500 does issue
the write, yet reports `False`, not the inserted outcome `True`. -/
theorem index_photo_absent_not_inserted :
    c1FailEnv.head (photo_document_id "0123456789ab".toList) = .ok 404 ∧
    index_photo c1FailEnv c1Doc = (some false, [photo_document_id "0123456789ab".toList]) ∧
    (some false : Option Bool) ≠ some true :=
  ⟨rfl, rfl, by decide⟩

/-- C10 (amended): `index_photo` absorbs every exception: an
authentication exception, a transport error on the HEAD check or on the
write, a write refused with a status other than 200/201, and the
duplicate case are all reported as the same value `False`, so the
caller cannot tell them apart; an exception during fingerprinting is
instead absorbed inside `get_photo_hash` by the fallback identity and
does not by itself force a `False` return. -/
theorem index_photo_failures_indistinct (env : IndexEnv) (doc : PhotoDocument)
    (document_id : List Char)
    (hid : document_id = photo_document_id (get_photo_hash env.md5hex env.objectBytes doc.objectKey))
    (hep : env.endpoint ≠ []) :
    (∀ e, env.credentials = .error e → index_photo env doc = (some false, [])) ∧
    (env.credentials = .ok () →
      (∀ e, env.head document_id = .error e → index_photo env doc = (some false, [])) ∧
      (env.head document_id = .ok 200 → index_photo env doc = (some false, [])) ∧
      (∀ s, env.head document_id = .ok s → s ≠ 200 →
        (∀ e, env.put document_id = .error e →
          index_photo env doc = (some false, [document_id])) ∧
        (∀ p, env.put document_id = .ok p → p ≠ 200 → p ≠ 201 →
          index_photo env doc = (some false, [document_id])))) := by
  subst hid
  refine ⟨fun e he => by simp [index_photo, hep, he], fun hcred =>
    ⟨fun e he => by simp [index_photo, hep, hcred, he],
     fun hh => by simp [index_photo, hep, hcred, hh],
     fun s hh hs =>
      ⟨fun e he => by simp [index_photo, hep, hcred, hh, hs, he],
       fun p hp h200 h201 => by simp [index_photo, hep, hcred, hh, hs, hp, h200, h201]⟩⟩⟩

/-- Witness for C10 (amended) at a concrete failing authentication. -/
theorem index_photo_failures_indistinct_witness :
    index_photo c10AuthEnv c10Doc = (some false, []) :=
  (index_photo_failures_indistinct c10AuthEnv c10Doc _ rfl (by decide)).1
    "auth failed".toList rfl

/-- C10 counterexample: when the ranged S3 read raises during
fingerprinting, `index_photo` proceeds with the fallback identity and a
successful write makes it return `True` — the fingerprinting exception
is not reported as `False`. -/
theorem index_photo_fingerprint_exception_not_false :
    c10FetchFailEnv.objectBytes = .error "read timeout".toList ∧
    (index_photo c10FetchFailEnv c10Doc).1 = some true ∧
    (some true : Option Bool) ≠ some false :=
  ⟨rfl, rfl, by decide⟩

/-- C5 (amended): when the intent-recognition collaborator is
unavailable (`query_lex_bot` gives nothing), the resolved keywords are
the direct normalization of the raw query text; but when it returns a
response from which no keywords can be extracted, the resolved keywords
are empty and the handler answers with empty keywords and results — it
does not fall back to direct normalization. -/
theorem handle_api_search_fallback (env : ApiEnv)
    (qsp : Option (List (List Char × List Char)))
    (user_query : List Char)
    (hq : user_query =
      pyStripBoth Char.isWhitespace ((lookupParam (qsp.getD []) q_param_key).getD []))
    (hne : user_query ≠ []) :
    (env.lex user_query = none →
      (handle_api_search env qsp).2.keywordsOf = extract_keywords_from_text user_query) ∧
    (∀ r, env.lex user_query = some r → extract_keywords_from_lex_response r = [] →
      handle_api_search env qsp = (200, .ok user_query [] [])) := by
  constructor
  · intro hl
    by_cases hk : extract_keywords_from_text user_query = [] <;>
      simp [handle_api_search, ← hq, hne, hl, hk, ApiBody.keywordsOf]
  · intro r hl hr
    simp [handle_api_search, ← hq, hne, hl, hr]

/-- Witness for C5 (amended) at a concrete query with an unavailable
Lex collaborator. -/
theorem handle_api_search_fallback_witness :
    (handle_api_search ⟨fun _ => none, ⟨[], .ok (), fun _ => .ok []⟩⟩
        (some [(q_param_key, "dogs".toList)])).2.keywordsOf =
      extract_keywords_from_text "dogs".toList :=
  (handle_api_search_fallback ⟨fun _ => none, ⟨[], .ok (), fun _ => .ok []⟩⟩
    (some [(q_param_key, "dogs".toList)]) "dogs".toList (by decide) (by decide)).1 rfl

/-- C5 counterexample: for the query `"dogs"`, a Lex response carrying
an intent with an empty slot mapping yields no extractable keywords,
and the handler resolves to the empty keyword list instead of the
direct normalization `["dog"]` of the raw query. -/
theorem handle_api_search_no_fallback_on_unusable_lex :
    handle_api_search c5EmptySlotsEnv (some [(q_param_key, "dogs".toList)]) =
      (200, .ok "dogs".toList [] []) ∧
    extract_keywords_from_text "dogs".toList = ["dog".toList] ∧
    ([] : List (List Char)) ≠ ["dog".toList] :=
  ⟨rfl, by decide, by decide⟩

/-- Helper: every token of `extract_keywords_from_text` is the
stripped-and-normalized image of a word of the lowercased, split input
that passed the stop-word and length filters. -/
theorem mem_extract_keywords (text tok : List Char)
    (h : tok ∈ extract_keywords_from_text text) :
    ∃ word ∈ pySplit (pyLower text),
      word ∉ STOP_WORDS ∧ word.length > 2 ∧
      tok = normalize_plural (pyStripBoth isPunctChar word) := by
  unfold extract_keywords_from_text at h
  simp only [List.mem_map, List.mem_filter, Bool.and_eq_true, Bool.not_eq_true',
    decide_eq_true_eq, decide_eq_false_iff_not] at h
  obtain ⟨stripped, ⟨word, ⟨hwmem, hstop, hlen⟩, rfl⟩, rfl⟩ := h
  exact ⟨word, hwmem, hstop, hlen, rfl⟩

/-- C2 (amended): every token emitted by `extract_keywords_from_text`
arises from a whitespace-delimited word of the lowercased input that is
not a stop word and has length > 2 *before* punctuation stripping; the
emitted token itself — stripped and plural-normalized — may still be a
stop word or have length ≤ 2. -/
theorem extract_keywords_token_origin (text tok : List Char)
    (h : tok ∈ extract_keywords_from_text text) :
    ∃ word ∈ pySplit (pyLower text),
      word ∉ STOP_WORDS ∧ word.length > 2 ∧
      tok = normalize_plural (pyStripBoth isPunctChar word) :=
  mem_extract_keywords text tok h

/-- Witness for C2 (amended) at the input `"dogs"` and its token `"dog"`. -/
theorem extract_keywords_token_origin_witness :
    ∃ word ∈ pySplit (pyLower "dogs".toList),
      word ∉ STOP_WORDS ∧ word.length > 2 ∧
      "dog".toList = normalize_plural (pyStripBoth isPunctChar word) :=
  extract_keywords_token_origin "dogs".toList "dog".toList (by decide)

/-- C2 counterexample: the input `"the."` emits the stop word `"the"`
(the length/stop-word filter sees `"the."` before stripping), and the
input `"is."` emits the token `"is"` of length 2. -/
theorem extract_keywords_emits_stop_and_short :
    ("the".toList ∈ extract_keywords_from_text "the.".toList ∧
      "the".toList ∈ STOP_WORDS) ∧
    ("is".toList ∈ extract_keywords_from_text "is.".toList ∧
      ("is".toList).length ≤ 2) := by
  decide

/-- C3 (amended): a word of length > 3 ending in `"s"`, not caught by
the `"ies"` rule, *and not ending in `"es"` at all*, loses its trailing
`"s"`; the extra exclusion is forced by the `elif` chain: any word
ending in `"es"` (length > 3) without the special suffixes is returned
unchanged rather than falling through to the drop-`"s"` branch. -/
theorem normalize_plural_drops_s (word : List Char)
    (hlen : word.length > 3)
    (hs : endswith word ("s".toList) = true)
    (hies : ¬(endswith word ("ies".toList) = true ∧ word.length > 4))
    (hes : endswith word ("es".toList) = false) :
    normalize_plural word = pyDropRight word 1 := by
  unfold normalize_plural
  rw [if_neg (by omega)]
  rw [if_neg (by simp only [Bool.and_eq_true, decide_eq_true_eq]; exact hies)]
  rw [if_neg (by
    simp only [Bool.and_eq_true, decide_eq_true_eq]
    exact fun hc => absurd hc.1 (ne_true_of_eq_false hes))]
  rw [if_pos (by
    simp only [Bool.and_eq_true, decide_eq_true_eq]
    exact ⟨hs, by omega⟩)]

/-- Witness for C3 (amended) at the word `"dogs"`. -/
theorem normalize_plural_drops_s_witness :
    normalize_plural "dogs".toList = pyDropRight "dogs".toList 1 :=
  normalize_plural_drops_s "dogs".toList (by decide) (by decide) (by decide) (by decide)

/-- C3 counterexample: `"makes"` has length > 3, ends in `"s"`, is not
caught by the `"ies"` rule nor by the `"es"` rule as the claim states
it (it lacks the special suffixes), yet `normalize_plural` returns it
unchanged instead of dropping the trailing `"s"`. -/
theorem normalize_plural_makes_unchanged :
    ("makes".toList).length > 3 ∧
    endswith "makes".toList ("s".toList) = true ∧
    ¬(endswith "makes".toList ("ies".toList) = true ∧ ("makes".toList).length > 4) ∧
    ¬(endswith "makes".toList ("es".toList) = true ∧ ("makes".toList).length > 3 ∧
      (endswith "makes".toList ("ches".toList) = true ∨
       endswith "makes".toList ("shes".toList) = true ∨
       endswith "makes".toList ("xes".toList) = true ∨
       endswith "makes".toList ("zes".toList) = true ∨
       endswith "makes".toList ("sses".toList) = true)) ∧
    normalize_plural "makes".toList ≠ pyDropRight "makes".toList 1 := by
  decide

/-- Helper: packing a valid codepoint and unpacking it is the identity. -/
theorem char_toNat_ofNat {n : Nat} (h : n.isValidChar) : (Char.ofNat n).toNat = n := by
  unfold Char.ofNat
  rw [dif_pos h]
  simp [Char.ofNatAux, Char.toNat, UInt32.toNat]

/-- Helper: `Char.toLower` fixes every character outside `A`-`Z`. -/
theorem toLower_eq_self (c : Char) (h : ¬(65 ≤ c.toNat ∧ c.toNat ≤ 90)) :
    Char.toLower c = c := by
  unfold Char.toLower
  rw [if_neg h]

/-- Helper: the codepoint arithmetic of `Char.toLower`. -/
theorem toNat_toLower (c : Char) :
    (Char.toLower c).toNat =
      if 65 ≤ c.toNat ∧ c.toNat ≤ 90 then c.toNat + 32 else c.toNat := by
  unfold Char.toLower
  by_cases h : 65 ≤ c.toNat ∧ c.toNat ≤ 90
  · rw [if_pos h, if_pos h, char_toNat_ofNat (Or.inl (by omega))]
  · rw [if_neg h, if_neg h]

/-- Helper: `Char.toLower` is idempotent. -/
theorem toLower_toLower (c : Char) : Char.toLower (Char.toLower c) = Char.toLower c := by
  by_cases h : 65 ≤ c.toNat ∧ c.toNat ≤ 90
  · apply toLower_eq_self
    rw [toNat_toLower c, if_pos h]
    omega
  · rw [toLower_eq_self c h]
    exact toLower_eq_self c h

/-- Helper: lowercasing never turns a non-punctuation character into
one of `. , ! ?`. -/
theorem isPunctChar_toLower (c : Char) (h : isPunctChar c = false) :
    isPunctChar (Char.toLower c) = false := by
  by_cases hu : 65 ≤ c.toNat ∧ c.toNat ≤ 90
  · have ht : (Char.toLower c).toNat = c.toNat + 32 := by
      rw [toNat_toLower, if_pos hu]
    have hne : ∀ p : Char, p.toNat < 97 → (Char.toLower c == p) = false := by
      intro p hp
      refine beq_eq_false_iff_ne.mpr fun hEq => ?_
      have h2 := congrArg Char.toNat hEq
      rw [ht] at h2
      omega
    unfold isPunctChar
    rw [hne '.' (by decide), hne ',' (by decide), hne '!' (by decide), hne '?' (by decide)]
    rfl
  · rw [toLower_eq_self c hu]
    exact h

/-- Helper: `splitWsAux` swallows a whitespace-free block into the
accumulator. -/
theorem splitWsAux_append_nonws (w : List Char) :
    ∀ (rest acc : List Char), (∀ c ∈ w, c.isWhitespace = false) →
      splitWsAux (w ++ rest) acc = splitWsAux rest (w.reverse ++ acc) := by
  induction w with
  | nil => intro rest acc _; simp
  | cons c cs ih =>
    intro rest acc h
    have hc : c.isWhitespace = false := h c (List.mem_cons_self c cs)
    simp only [List.cons_append, splitWsAux, hc, Bool.false_eq_true, if_false,
      List.reverse_cons, List.append_assoc, List.singleton_append]
    exact ih rest (c :: acc) (fun d hd => h d (List.mem_cons_of_mem c hd))

/-- Helper: every character of a `splitWsAux` piece comes from the
input (and is then no whitespace) or from the accumulator. -/
theorem mem_splitWsAux (l : List Char) :
    ∀ (acc w : List Char), w ∈ splitWsAux l acc →
      ∀ c ∈ w, (c ∈ l ∧ c.isWhitespace = false) ∨ c ∈ acc := by
  induction l with
  | nil =>
    intro acc w hw c hc
    simp only [splitWsAux, List.mem_singleton] at hw
    subst hw
    exact Or.inr (List.mem_reverse.mp hc)
  | cons d ds ih =>
    intro acc w hw c hc
    by_cases hd : d.isWhitespace = true
    · simp only [splitWsAux, hd, if_true, List.mem_cons] at hw
      rcases hw with rfl | hw
      · exact Or.inr (List.mem_reverse.mp hc)
      · rcases ih [] w hw c hc with ⟨hcl, hws⟩ | habs
        · exact Or.inl ⟨List.mem_cons_of_mem d hcl, hws⟩
        · exact absurd habs (List.not_mem_nil c)
    · simp only [splitWsAux, hd, if_false] at hw
      rcases ih (d :: acc) w hw c hc with ⟨hcl, hws⟩ | hacc
      · exact Or.inl ⟨List.mem_cons_of_mem d hcl, hws⟩
      · rcases List.mem_cons.mp hacc with rfl | h2
        · exact Or.inl ⟨List.mem_cons_self c ds, eq_false_of_ne_true hd⟩
        · exact Or.inr h2

/-- Helper: the pieces of `pySplit` are whitespace-free subcollections
of the input. -/
theorem mem_pySplit_chars (t w : List Char) (hw : w ∈ pySplit t) :
    ∀ c ∈ w, c ∈ t ∧ c.isWhitespace = false := by
  intro c hc
  have hw' : w ∈ splitWsAux t [] := List.mem_of_mem_filter hw
  rcases mem_splitWsAux t [] w hw' c hc with h | h
  · exact h
  · exact absurd h (List.not_mem_nil c)

/-- Helper: `dropWhile` is the identity when no element satisfies the
predicate. -/
theorem dropWhile_eq_self_of (p : Char → Bool) (w : List Char)
    (h : ∀ c ∈ w, p c = false) : w.dropWhile p = w := by
  cases w with
  | nil => rfl
  | cons c cs => simp [List.dropWhile_cons, h c (List.mem_cons_self c cs)]

/-- Helper: stripping is the identity on words free of the stripped
characters. -/
theorem pyStripBoth_eq_self (p : Char → Bool) (w : List Char)
    (h : ∀ c ∈ w, p c = false) : pyStripBoth p w = w := by
  unfold pyStripBoth
  rw [dropWhile_eq_self_of p w h,
    dropWhile_eq_self_of p w.reverse (fun c hc => h c (List.mem_reverse.mp hc)),
    List.reverse_reverse]

/-- Helper: `normalize_plural` only removes characters, except for the
`'y'` of the `"ies"` rule. -/
theorem mem_normalize_plural (w : List Char) (c : Char) (h : c ∈ normalize_plural w) :
    c ∈ w ∨ c = 'y' := by
  unfold normalize_plural at h
  split at h
  · exact Or.inl h
  split at h
  · rcases List.mem_append.mp h with h1 | h1
    · exact Or.inl (List.take_subset _ _ h1)
    · simp at h1
      exact Or.inr h1
  split at h
  · split at h
    · exact Or.inl (List.take_subset _ _ h)
    · exact Or.inl h
  split at h
  · exact Or.inl (List.take_subset _ _ h)
  · exact Or.inl h

/-- Helper: `normalize_plural` keeps a non-empty word non-empty. -/
theorem normalize_plural_length_pos (w : List Char) (hw : 0 < w.length) :
    0 < (normalize_plural w).length := by
  unfold normalize_plural
  split
  · exact hw
  split
  · simp [pyDropRight]
  split
  · split
    · simp only [pyDropRight, List.length_take]
      omega
    · exact hw
  split
  · simp only [pyDropRight, List.length_take]
    omega
  · exact hw

/-- Helper: every character of a joined token list is a token character
or the separating space. -/
theorem mem_pyJoin (toks : List (List Char)) (c : Char) (h : c ∈ pyJoin toks) :
    (∃ w ∈ toks, c ∈ w) ∨ c = ' ' := by
  induction toks with
  | nil => simp [pyJoin] at h
  | cons w ws ih =>
    cases ws with
    | nil => exact Or.inl ⟨w, List.mem_cons_self w [], h⟩
    | cons w' ws' =>
      have h' : c ∈ w ++ ' ' :: pyJoin (w' :: ws') := h
      rcases List.mem_append.mp h' with h1 | h1
      · exact Or.inl ⟨w, List.mem_cons_self w (w' :: ws'), h1⟩
      · rcases List.mem_cons.mp h1 with rfl | h2
        · exact Or.inr rfl
        · rcases ih h2 with ⟨u, hu, hcu⟩ | hsp
          · exact Or.inl ⟨u, List.mem_cons_of_mem w hu, hcu⟩
          · exact Or.inr hsp

/-- Helper: splitting the space-joined concatenation of non-empty,
whitespace-free tokens recovers the tokens. -/
theorem pySplit_pyJoin (toks : List (List Char))
    (h : ∀ w ∈ toks, w ≠ [] ∧ ∀ c ∈ w, c.isWhitespace = false) :
    pySplit (pyJoin toks) = toks := by
  induction toks with
  | nil => rfl
  | cons w ws ih =>
    obtain ⟨hne, hws⟩ := h w (List.mem_cons_self w ws)
    cases ws with
    | nil =>
      show pySplit (pyJoin [w]) = [w]
      unfold pySplit
      rw [show pyJoin [w] = w from rfl]
      have h1 := splitWsAux_append_nonws w [] [] hws
      rw [List.append_nil] at h1
      rw [h1]
      simp [splitWsAux, List.isEmpty_iff, hne]
    | cons w' ws' =>
      have hrest : pySplit (pyJoin (w' :: ws')) = w' :: ws' :=
        ih (fun u hu => h u (List.mem_cons_of_mem w hu))
      show pySplit (pyJoin (w :: w' :: ws')) = w :: w' :: ws'
      unfold pySplit
      rw [show pyJoin (w :: w' :: ws') = w ++ ' ' :: pyJoin (w' :: ws') from rfl]
      rw [splitWsAux_append_nonws w (' ' :: pyJoin (w' :: ws')) [] hws]
      rw [show splitWsAux (' ' :: pyJoin (w' :: ws')) (w.reverse ++ []) =
            (w.reverse ++ []).reverse :: splitWsAux (pyJoin (w' :: ws')) [] from by
          simp [splitWsAux]]
      simp only [List.append_nil, List.reverse_reverse, List.filter_cons]
      have hkeep : (!w.isEmpty) = true := by
        simp [List.isEmpty_iff, hne]
      rw [if_pos hkeep]
      have htail : List.filter (fun u => !u.isEmpty) (splitWsAux (pyJoin (w' :: ws')) []) =
          w' :: ws' := hrest
      rw [htail]

/-- C4 (amended): for an input without punctuation, re-normalizing the
space-joined single-pass tokens yields only tokens that are the
pluralization collapse of some single-pass token (the second pass can
re-singularize, e.g. `"busses"` → `"buss"` → `"bus"`, so a second-pass
token need not itself be a single-pass token). -/
theorem extract_keywords_second_pass (x : List Char)
    (hx : ∀ c ∈ x, isPunctChar c = false) :
    ∀ tok ∈ extract_keywords_from_text (pyJoin (extract_keywords_from_text x)),
      ∃ u ∈ extract_keywords_from_text x, tok = normalize_plural u := by
  have htok : ∀ w ∈ extract_keywords_from_text x,
      w ≠ [] ∧ ∀ c ∈ w,
        c.isWhitespace = false ∧ isPunctChar c = false ∧ Char.toLower c = c := by
    intro w hw
    obtain ⟨word, hwmem, hstop, hlen, rfl⟩ := mem_extract_keywords x w hw
    have hchars : ∀ c ∈ word,
        c.isWhitespace = false ∧ isPunctChar c = false ∧ Char.toLower c = c := by
      intro c hc
      obtain ⟨hcl, hws⟩ := mem_pySplit_chars (pyLower x) word hwmem c hc
      obtain ⟨d, hd, rfl⟩ := List.mem_map.mp hcl
      exact ⟨hws, isPunctChar_toLower d (hx d hd), toLower_toLower d⟩
    have hstrip : pyStripBoth isPunctChar word = word :=
      pyStripBoth_eq_self isPunctChar word (fun c hc => (hchars c hc).2.1)
    rw [hstrip]
    constructor
    · intro hnil
      have := normalize_plural_length_pos word (by omega)
      rw [hnil] at this
      exact absurd this (by simp)
    · intro c hc
      rcases mem_normalize_plural word c hc with h1 | rfl
      · exact hchars c h1
      · exact ⟨by decide, by decide, by decide⟩
  have hlower : pyLower (pyJoin (extract_keywords_from_text x)) =
      pyJoin (extract_keywords_from_text x) := by
    unfold pyLower
    have hfix : ∀ c ∈ pyJoin (extract_keywords_from_text x), Char.toLower c = c := by
      intro c hc
      rcases mem_pyJoin _ c hc with ⟨u, hu, hcu⟩ | rfl
      · exact ((htok u hu).2 c hcu).2.2
      · decide
    calc List.map Char.toLower (pyJoin (extract_keywords_from_text x))
        = List.map id (pyJoin (extract_keywords_from_text x)) :=
          List.map_congr_left hfix
      _ = pyJoin (extract_keywords_from_text x) := List.map_id _
  have hsplit : pySplit (pyJoin (extract_keywords_from_text x)) =
      extract_keywords_from_text x :=
    pySplit_pyJoin _ (fun w hw => ⟨(htok w hw).1, fun c hc => ((htok w hw).2 c hc).1⟩)
  intro tok htk
  obtain ⟨word, hwmem, hstop, hlen, rfl⟩ :=
    mem_extract_keywords (pyJoin (extract_keywords_from_text x)) tok htk
  rw [hlower, hsplit] at hwmem
  have hstrip : pyStripBoth isPunctChar word = word :=
    pyStripBoth_eq_self _ _ (fun c hc => ((htok word hwmem).2 c hc).2.1)
  exact ⟨word, hwmem, by rw [hstrip]⟩

/-- Witness for C4 (amended) at the punctuation-free input `"dogs"`. -/
theorem extract_keywords_second_pass_witness :
    ∃ u ∈ extract_keywords_from_text "dogs".toList,
      "dog".toList = normalize_plural u :=
  extract_keywords_second_pass "dogs".toList (by decide) "dog".toList (by decide)

/-- C4 counterexample: the punctuation-free input `"busses"` has
single-pass tokens `["buss"]`, but re-normalizing their space-joined
text yields the new token `"bus"`. -/
theorem extract_keywords_not_idempotent :
    (∀ c ∈ "busses".toList, isPunctChar c = false) ∧
    "bus".toList ∈
      extract_keywords_from_text (pyJoin (extract_keywords_from_text "busses".toList)) ∧
    "bus".toList ∉ extract_keywords_from_text "busses".toList := by
  decide
